import Mathlib

/-!
Verification of the crill concurrency toolkit core against its specification.

The development shallowly embeds the relevant parts of the C++ sources:

* `reclaim_object_tl.h` — epoch-based reclaimable object: zombie list,
  reader records with `min_epoch` / snapshot / nesting depth, the write
  protocol (`exchange_and_retire`), `reclaim`, and the thread-index
  allocator used by `get_reader`.
* `impl/progressive_backoff_wait_impl_pure_exp.h` — the pure-exponential
  backoff schedule, embedded as a walk over the unrolled stage list with
  an instrumented count of predicate calls and emitted delays.
* `spin_condition_variable.h` — the counter-variant spin condition
  variable, embedded both as a step relation over the atomic counter with
  interleaved waiter/notifier steps and as a sequential execution of the
  timed-wait loop.

Machine integers are modelled as `Nat` (the 64-bit epoch counter cannot
overflow in any execution the claims quantify over) and the C++ `int`
counter of the condition variable as `Int`, so that negativity is
observable.
-/

namespace Crill

/-! ## Reclaimable object: zombies and reclamation -/

/-- Entry of the zombie list of `reclaim_object_tl`: a superseded value
together with the epoch at which it was retired.  The `value` field is an
`Option` mirroring the owning `std::unique_ptr<T>` (which `reclaim` resets
to null before erasing the entry). -/
structure Zombie (V : Type) where
  epoch_when_retired : Nat
  value : Option V
deriving DecidableEq, Repr

/-- Embedding of `reclaim_object_tl::has_readers_using_epoch`: the reader
records are represented by the list of their `min_epoch` values (the only
field the scan reads).  A reader uses `epoch` iff its `min_epoch` is
nonzero and at most `epoch`. -/
def has_readers_using_epoch (readers : List Nat) (epoch : Nat) : Bool :=
  readers.any fun reader_epoch => decide (reader_epoch ≠ 0 ∧ reader_epoch ≤ epoch)

/-- Embedding of `reclaim_object_tl::reclaim` (body under `zombies_mtx`):
first every zombie with no reader using its epoch has its value reset to
null, then all null-valued entries are erased from the list. -/
def reclaim (readers : List Nat) (zombies : List (Zombie V)) : List (Zombie V) :=
  (zombies.map fun z =>
      if has_readers_using_epoch readers z.epoch_when_retired then z
      else ⟨z.epoch_when_retired, none⟩).filter
    fun z => z.value.isSome

/-! ## Reclaimable object: write protocol and event traces -/

/-- State of a `reclaim_object_tl` as seen by writers: the current value
(the `atomic_unique_ptr` cell, always non-null, here a plain value), the
zombie list, and the 64-bit epoch counter (starts at 1). -/
structure ObjState (V : Type) where
  value : V
  zombies : List (Nat × V)
  current_epoch : Nat
deriving DecidableEq, Repr

/-- Atomic / mutex events emitted by the operations of
`reclaim_object_tl`, used to state ordering properties of the protocols. -/
inductive MemEvent where
  | exchangeValue
  | lockZombiesMtx
  | fetchAddEpoch
  | pushZombie
  | unlockZombiesMtx
  | loadEpoch
  | storeMinEpoch
  | loadValueCell
  | clearSnapshot
  | loadMinEpoch
  | resetZombieValue
  | eraseZombies
deriving DecidableEq, Repr

/-- Event trace of `reclaim_object_tl::exchange_and_retire`, in code
order: the seq-cst exchange on the value cell, then under `zombies_mtx`
the `current_epoch.fetch_add(1)` and the push of the retired pair. -/
def exchange_and_retire_trace : List MemEvent :=
  [.exchangeValue, .lockZombiesMtx, .fetchAddEpoch, .pushZombie, .unlockZombiesMtx]

/-- Event trace of the first (outermost) `read_ptr` acquisition: load of
`current_epoch`, store of `min_epoch`, then the acquiring load of the
value cell. -/
def read_ptr_first_acquire_trace : List MemEvent :=
  [.loadEpoch, .storeMinEpoch, .loadValueCell]

/-- Event trace of the last (outermost) `read_ptr` release: clearing the
snapshot pointer, then storing 0 to `min_epoch`. -/
def read_ptr_last_release_trace : List MemEvent :=
  [.clearSnapshot, .storeMinEpoch]

/-- Event trace of `reclaim_object_tl::reclaim`: everything happens under
`zombies_mtx`; reader `min_epoch`s are loaded, dead zombie values reset,
and the null entries erased. -/
def reclaim_trace : List MemEvent :=
  [.lockZombiesMtx, .loadMinEpoch, .resetZombieValue, .eraseZombies, .unlockZombiesMtx]

/-- Embedding of `reclaim_object_tl::exchange_and_retire`: exchange the
new owned value into the cell, then under the mutex capture
`e = current_epoch.fetch_add(1)` (which returns the pre-increment value)
and append `(e, old value)` to the zombie list.  Returns the new state
and the emitted event trace. -/
def exchange_and_retire (s : ObjState V) (new_value : V) :
    ObjState V × List MemEvent :=
  (⟨new_value, s.zombies ++ [(s.current_epoch, s.value)], s.current_epoch + 1⟩,
   exchange_and_retire_trace)

/-- Embedding of `reclaim_object_tl::update`: constructs the new value
and delegates to `exchange_and_retire`. -/
def update (s : ObjState V) (new_value : V) : ObjState V × List MemEvent :=
  exchange_and_retire s new_value

/-- Embedding of the `write_ptr` destructor's publication step: it hands
its owned copy to `exchange_and_retire`. -/
def write_ptr_destroy (s : ObjState V) (new_value : V) : ObjState V × List MemEvent :=
  exchange_and_retire s new_value

/-- Scans a trace and checks that no `fetchAddEpoch` occurs before an
`exchangeValue` has been seen (accumulator: whether the exchange has
happened yet). -/
def epochAfterExchange : List MemEvent → Bool → Bool
  | [], _ => true
  | .exchangeValue :: rest, _ => epochAfterExchange rest true
  | .fetchAddEpoch :: rest, seen => seen && epochAfterExchange rest seen
  | _ :: rest, seen => epochAfterExchange rest seen

/-- Scans a trace tracking the `zombies_mtx` hold depth and checks that
every `fetchAddEpoch` (the only update of `current_epoch`) occurs while
the mutex is held. -/
def epochUpdatesUnderMutex : List MemEvent → Nat → Bool
  | [], _ => true
  | .lockZombiesMtx :: rest, d => epochUpdatesUnderMutex rest (d + 1)
  | .unlockZombiesMtx :: rest, d => epochUpdatesUnderMutex rest (d - 1)
  | .fetchAddEpoch :: rest, d => decide (0 < d) && epochUpdatesUnderMutex rest d
  | _ :: rest, d => epochUpdatesUnderMutex rest d

/-! ## Reclaimable object: reader records and read handles -/

/-- Per-thread reader record of `reclaim_object_tl::reader`: the atomic
`min_epoch`, the snapshot pointer `value_read` (null = `none`), and the
nesting depth `num_reading`. -/
structure ReaderRecord (V : Type) where
  min_epoch : Nat
  value_read : Option V
  num_reading : Nat
deriving DecidableEq, Repr

/-- Embedding of the `read_ptr` constructor: increment `num_reading`;
if `min_epoch` is 0 (first acquisition) store the current epoch into
`min_epoch` and load the value snapshot.  `current_epoch` and
`current_value` are the values the two loads would observe. -/
def read_ptr_acquire (current_epoch : Nat) (current_value : V)
    (r : ReaderRecord V) : ReaderRecord V :=
  let r1 : ReaderRecord V := { r with num_reading := r.num_reading + 1 }
  if r1.min_epoch = 0 then
    { r1 with min_epoch := current_epoch, value_read := some current_value }
  else r1

/-- Embedding of the `read_ptr` destructor: decrement `num_reading`; if
it reached 0 (last release) clear the snapshot and store 0 to
`min_epoch`. -/
def read_ptr_release (r : ReaderRecord V) : ReaderRecord V :=
  let r1 : ReaderRecord V := { r with num_reading := r.num_reading - 1 }
  if r1.num_reading = 0 then { r1 with value_read := none, min_epoch := 0 } else r1

/-- Invariant of a reader record: at nesting depth 0 the record holds
`min_epoch = 0` and a null snapshot; at positive depth it holds a nonzero
`min_epoch` and a non-null snapshot. -/
def readerInv (r : ReaderRecord V) : Prop :=
  (r.num_reading = 0 → r.min_epoch = 0 ∧ r.value_read = none)
  ∧ (r.num_reading ≠ 0 → r.min_epoch ≠ 0 ∧ r.value_read ≠ none)

/-! ## Reclaimable object: whole-object sequential scenarios -/

/-- A `reclaim_object_tl` together with one of its pre-allocated reader
records, for sequential end-to-end scenarios. -/
structure ObjWithReader (V : Type) where
  obj : ObjState V
  rdr : ReaderRecord V
deriving DecidableEq, Repr

/-- Embedding of the `reclaim_object_tl(Args&&...)` constructor followed
by `get_reader()`: value constructed from the argument, `current_epoch`
starts at 1, empty zombie list, and the pre-allocated reader record is
zero-initialized. -/
def mk_reclaim_object (v : V) : ObjWithReader V :=
  ⟨⟨v, [], 1⟩, ⟨0, none, 0⟩⟩

/-- `reader::read_lock()` on the combined state: runs the `read_ptr`
constructor against the object's current epoch and value. -/
def obj_read_lock (s : ObjWithReader V) : ObjWithReader V :=
  { s with rdr := read_ptr_acquire s.obj.current_epoch s.obj.value s.rdr }

/-- Dropping the `read_ptr` on the combined state. -/
def obj_read_unlock (s : ObjWithReader V) : ObjWithReader V :=
  { s with rdr := read_ptr_release s.rdr }

/-- `update` on the combined state: the reader record is untouched. -/
def obj_update (s : ObjWithReader V) (v : V) : ObjWithReader V :=
  { s with obj := (update s.obj v).1 }

/-- Dereferencing a live `read_ptr`: yields the snapshot the reader
record holds. -/
def read_deref (s : ObjWithReader V) : Option V :=
  s.rdr.value_read

/-! ## Reclaimable object: thread-index allocator of `get_reader` -/

abbrev ThreadId := Nat

abbrev ObjId := Nat

/-- Error raised by `get_reader` when a fresh thread would exceed
`max_num_threads` ("Exceeded maximum number of supported threads."). -/
inductive CrillError where
  | too_many_threads
deriving DecidableEq, Repr

/-- The process-wide allocation state used by `get_reader` of one
template instantiation `reclaim_object_tl<T, max_num_threads>`: the
function-local `static` counter `thread_counter` and the function-local
`thread_local` cache `thread_id` (one slot per thread, `none` = not yet
initialized).  Both are shared by every object of the instantiation. -/
structure ThreadRegistry where
  thread_counter : Nat
  thread_id : ThreadId → Option Nat

/-- The allocator state at process start: counter 0, no thread has an
index yet. -/
def registry0 : ThreadRegistry :=
  ⟨0, fun _ => none⟩

/-- Embedding of `reclaim_object_tl::get_reader`, called on object `obj`
by thread `t`.  If the calling thread's `thread_id` is already
initialized, its cached index is returned and nothing changes.  Otherwise
the thread claims `id = thread_counter.fetch_add(1)`; if `id` is at least
`max_num_threads` the initialization throws (the counter increment
remains, the cache stays uninitialized), else `id` is cached for the
thread.  The returned index selects the caller's pre-bound record
`thread_readers.at(id)` in that object's pre-allocated vector; the
allocation state itself does not depend on `obj`. -/
def get_reader (max_num_threads : Nat) (st : ThreadRegistry)
    (obj : ObjId) (t : ThreadId) : Except CrillError Nat × ThreadRegistry :=
  match st.thread_id t with
  | some id => (.ok id, st)
  | none =>
    let id := st.thread_counter
    if max_num_threads ≤ id then
      (.error .too_many_threads, { st with thread_counter := id + 1 })
    else
      (.ok id, ⟨id + 1, fun t' => if t' = t then some id else st.thread_id t'⟩)

/-- Sequentially performs one `get_reader` call per thread in the list,
returning the results and the final allocator state. -/
def runCalls (max_num_threads : Nat) (obj : ObjId) (st : ThreadRegistry) :
    List ThreadId → List (Except CrillError Nat) × ThreadRegistry
  | [] => ([], st)
  | t :: ts =>
    let r := get_reader max_num_threads st obj t
    let rest := runCalls max_num_threads obj r.2 ts
    (r.1 :: rest.1, rest.2)

/-- Embedding of `init_thread_readers`: the per-object vector of
`max_num_threads` pre-allocated, zero-initialized reader records that the
index returned by `get_reader` selects into. -/
def init_thread_readers (max_num_threads : Nat) (V : Type) : List (ReaderRecord V) :=
  List.replicate max_num_threads ⟨0, none, 0⟩

/-! ## Pure-exponential progressive backoff -/

/-- A delay emitted by one stage of the pure-exponential backoff: either
a timed sleep of the given number of nanoseconds or an unrolled burst of
`n` CPU pause hints. -/
inductive DelayEv where
  | sleep (ns : Nat)
  | pauses (n : Nat)
deriving DecidableEq, Repr

/-- Outcome of walking the unrolled `PAUSE_AND_CHECK` stages of
`progressive_backoff_wait_pure_exp`.  The `Nat` is the index of the next
predicate call: `done i` means the function returned because the call
with index `i` came back true; `terminal i` means control entered one of
the `while (true)` terminal loops with `i` calls already made; `fellOff
i` means control ran past the last stage and the function returned with
`i` calls made, none of which returned true. -/
inductive ExpStageOutcome where
  | done (calls : Nat)
  | terminal (calls : Nat)
  | fellOff (calls : Nat)
deriving DecidableEq, Repr

/-- The `N` arguments of the 41 unrolled `PAUSE_AND_CHECK(N)` invocations
in `progressive_backoff_wait_pure_exp`, i.e. `2^0 … 2^40`. -/
def pause_and_check_stages : List Nat :=
  [1, 2, 4, 8, 16, 32, 64, 128, 256, 512, 1024, 2048, 4096, 8192, 16384,
   32768, 65536, 131072, 262144, 524288, 1048576, 2097152, 4194304,
   8388608, 16777216, 33554432, 67108864, 134217728, 268435456, 536870912,
   1073741824, 2147483648, 4294967296, 8589934592, 17179869184,
   34359738368, 68719476736, 137438953472, 274877906944, 549755813888,
   1099511627776]

/-- Embedding of the `PAUSE_AND_CHECK(N)` macro of
`impl/progressive_backoff_wait_impl_pure_exp.h`, iterated over the stage
list.  `t` is `PAUSE_TIME`; `mn`, `mx`, `thr` are `min_ns`, `max_ns`,
`sleep_threshold_ns`; `pred j` is the result of the `j`-th call to the
predicate.  For a stage with budget `d = t * n`: if `d < min_ns` the
whole block is compiled out (no check, no delay); otherwise if
`d < max_ns` the predicate is checked once and, if false, a delay is
emitted (a timed sleep when `d ≥ sleep_threshold_ns`, else an unrolled
burst of `n` pauses); otherwise control enters the terminal
`while (true)` loop. -/
def runStages (t mn mx thr : Nat) (pred : Nat → Bool) :
    List Nat → Nat → ExpStageOutcome × List DelayEv
  | [], i => (.fellOff i, [])
  | n :: rest, i =>
    if t * n < mn then
      runStages t mn mx thr pred rest i
    else if thr ≤ t * n then
      if t * n < mx then
        if pred i then (.done i, [])
        else ((runStages t mn mx thr pred rest (i + 1)).1,
              DelayEv.sleep (t * n) :: (runStages t mn mx thr pred rest (i + 1)).2)
      else (.terminal i, [])
    else
      if t * n < mx then
        if pred i then (.done i, [])
        else ((runStages t mn mx thr pred rest (i + 1)).1,
              DelayEv.pauses n :: (runStages t mn mx thr pred rest (i + 1)).2)
      else (.terminal i, [])

/-- Definition following the spec's words for the skipped stages (for
comparison with `runStages`, which follows the source): "If
`D_k < min_ns`: skip (check only)" — a stage below `min_ns` still checks
the predicate once, emitting no delay.  All other stages behave as in
`runStages`. -/
def runStages_spec_skip_checks (t mn mx thr : Nat) (pred : Nat → Bool) :
    List Nat → Nat → ExpStageOutcome × List DelayEv
  | [], i => (.fellOff i, [])
  | n :: rest, i =>
    if t * n < mn then
      if pred i then (.done i, [])
      else runStages_spec_skip_checks t mn mx thr pred rest (i + 1)
    else if thr ≤ t * n then
      if t * n < mx then
        if pred i then (.done i, [])
        else ((runStages_spec_skip_checks t mn mx thr pred rest (i + 1)).1,
              DelayEv.sleep (t * n) ::
                (runStages_spec_skip_checks t mn mx thr pred rest (i + 1)).2)
      else (.terminal i, [])
    else
      if t * n < mx then
        if pred i then (.done i, [])
        else ((runStages_spec_skip_checks t mn mx thr pred rest (i + 1)).1,
              DelayEv.pauses n ::
                (runStages_spec_skip_checks t mn mx thr pred rest (i + 1)).2)
      else (.terminal i, [])

/-- One `while (true)` terminal loop of `PAUSE_AND_CHECK`: check the
predicate, return on truth, otherwise delay and repeat.  Executed with
fuel; `none` means the loop is still spinning after `fuel` checks. -/
def runTerminal (pred : Nat → Bool) : Nat → Nat → Option Nat
  | _, 0 => none
  | i, fuel + 1 => if pred i then some i else runTerminal pred (i + 1) fuel

/-- The always-false predicate (a predicate that never observes truth). -/
def predFalse : Nat → Bool := fun _ => false

/-! ## Counter-variant spin condition variable: step relation -/

/-- Program point of one thread executing
`spin_condition_variable::wait()`: still spinning in the backoff
(`waiting`), having observed a positive counter so the backoff predicate
returned true (`observed`), or returned after the `fetch_sub`
(`finished`). -/
inductive WaiterPhase where
  | waiting
  | observed
  | finished
deriving DecidableEq, Repr

/-- State of a `spin_condition_variable` with a set of waiter threads:
the atomic `int` counter and each waiter's program point. -/
structure CVSys where
  counter : Int
  phase : List WaiterPhase
deriving DecidableEq, Repr

/-- Atomic steps of the counter-variant condition variable: a `notify()`
(`counter.fetch_add(1)`), waiter `w`'s backoff predicate load observing
`counter > 0`, and waiter `w`'s `counter.fetch_sub(1)` after its wait. -/
inductive CVAction where
  | notify
  | observe (w : Nat)
  | decrement (w : Nat)
deriving DecidableEq, Repr

/-- Looks up the phase of waiter `w`. -/
def getPhase : List WaiterPhase → Nat → Option WaiterPhase
  | [], _ => none
  | p :: _, 0 => some p
  | _ :: t, n + 1 => getPhase t n

/-- Replaces the phase of waiter `w`. -/
def setPhase : List WaiterPhase → Nat → WaiterPhase → List WaiterPhase
  | [], _, _ => []
  | _ :: t, 0, p => p :: t
  | h :: t, n + 1, p => h :: setPhase t n p

/-- One interleaved step of the system.  `notify` increments the counter.
An `observe w` step is enabled only when waiter `w` is spinning and the
seq-cst load returns a positive counter (otherwise the predicate is false
and no transition happens).  A `decrement w` step is waiter `w`'s
unconditional `fetch_sub(1)` once its backoff has returned — the load and
the decrement are two separate atomic operations in the source. -/
def cvStep (s : CVSys) : CVAction → Option CVSys
  | .notify => some ⟨s.counter + 1, s.phase⟩
  | .observe w =>
    if getPhase s.phase w = some .waiting then
      if 0 < s.counter then some ⟨s.counter, setPhase s.phase w .observed⟩ else none
    else none
  | .decrement w =>
    if getPhase s.phase w = some .observed then
      some ⟨s.counter - 1, setPhase s.phase w .finished⟩
    else none

/-- Runs a sequence of interleaved steps; `none` if some step is not
enabled. -/
def cvRun : CVSys → List CVAction → Option CVSys
  | s, [] => some s
  | s, a :: rest =>
    match cvStep s a with
    | some s' => cvRun s' rest
    | none => none

/-- The steps of `k` complete sequential waits by waiters `i, i+1, …`:
each wait observes the counter and then decrements it. -/
def goWaits : Nat → Nat → List CVAction
  | _, 0 => []
  | i, k + 1 => .observe i :: .decrement i :: goWaits (i + 1) k

/-- The sequential scenario of the spec: `k` notifies with no intervening
waits, then `k` waits run to completion one after the other. -/
def seqTrace (k : Nat) : List CVAction :=
  List.replicate k .notify ++ goWaits 0 k

/-! ## Spin condition variable: timed wait -/

/-- Result of a terminating `spin_condition_variable::wait_until` call:
the returned boolean (`!timeout_reached`), the index of the predicate
call on which the backoff exited, and the number of `fetch_sub(1)`
operations performed on the counter (0 or 1). -/
structure WUResult where
  returned : Bool
  call_idx : Nat
  sub_count : Nat
deriving DecidableEq, Repr

/-- Embedding of `spin_condition_variable::wait_until` (no-predicate
form), executed sequentially with fuel.  `now j` is the clock value
`Clock::now()` reads at the `j`-th predicate call and `cnt j` the value
the counter load returns there (concurrent notifies may change it between
calls).  Each call first compares the clock against the deadline, setting
`timeout_reached` and stopping the backoff on expiry; otherwise it checks
`counter > 0`.  After the backoff, `counter.fetch_sub(1)` runs iff the
timeout was not reached, and `!timeout_reached` is returned.  `none`
means the backoff is still spinning after `fuel` calls. -/
def wait_until_run (now : Nat → Nat) (deadline : Nat) (cnt : Nat → Int) :
    Nat → Nat → Option WUResult
  | _, 0 => none
  | n, fuel + 1 =>
    if deadline ≤ now n then some ⟨false, n, 0⟩
    else if 0 < cnt n then some ⟨true, n, 1⟩
    else wait_until_run now deadline cnt (n + 1) fuel

/-- Embedding of `spin_condition_variable::wait_for`: it computes
`steady_clock::now() + timeout` at entry (the clock value of its first
predicate call) and delegates to `wait_until`. -/
def wait_for_run (now : Nat → Nat) (timeout : Nat) (cnt : Nat → Int)
    (n0 fuel : Nat) : Option WUResult :=
  wait_until_run now (now n0 + timeout) cnt n0 fuel

/-- A clock that advances by one per predicate call. -/
def nowLinear : Nat → Nat := fun n => n

/-- A counter that is never signalled. -/
def cntZero : Nat → Int := fun _ => 0

/-- Allocator state of the instantiation after thread 10 called
`get_reader` on object 0 and thread 20 called it on object 1
(`max_num_threads = 2`). -/
def stC10 : ThreadRegistry :=
  (get_reader 2 (get_reader 2 registry0 0 10).2 1 20).2

end Crill

namespace Crill

/-! ## Theorems: reclamation (C1) -/

/-- C1.  After `reclaim()` returns, a zombie remains on the zombie list
iff some reader record has `0 < min_epoch ≤ epoch_when_retired` at the
time of the scan; every other zombie is destroyed and its entry removed:
`reclaim` equals filtering the list by `has_readers_using_epoch`, and
that predicate holds exactly when such a reader exists. -/
theorem C1_reclaim_live_set (V : Type) (readers : List Nat)
    (zombies : List (Zombie V)) (hz : ∀ z ∈ zombies, z.value.isSome) :
    reclaim readers zombies
      = zombies.filter (fun z => has_readers_using_epoch readers z.epoch_when_retired)
    ∧ ∀ e, has_readers_using_epoch readers e = true
        ↔ ∃ r ∈ readers, 0 < r ∧ r ≤ e := by
  constructor
  · induction zombies with
    | nil => simp [reclaim]
    | cons z rest ih =>
      have hzv : z.value.isSome := hz z (by simp)
      have hrest : ∀ z ∈ rest, z.value.isSome := fun z hzm => hz z (by simp [hzm])
      by_cases h : has_readers_using_epoch readers z.epoch_when_retired = true
      · simp only [reclaim, List.map_cons, List.filter_cons, h, if_pos, hzv]
        simpa [reclaim] using ih hrest
      · simp only [Bool.not_eq_true] at h
        simp only [reclaim, List.map_cons, List.filter_cons, h]
        simpa [reclaim] using ih hrest
  · intro e
    simp only [has_readers_using_epoch, List.any_eq_true, decide_eq_true_eq]
    constructor
    · rintro ⟨r, hr, hne, hle⟩
      exact ⟨r, hr, Nat.pos_of_ne_zero hne, hle⟩
    · rintro ⟨r, hr, hpos, hle⟩
      exact ⟨r, hr, Nat.pos_iff_ne_zero.mp hpos, hle⟩

/-- Witness for C1 at a concrete input: readers with `min_epoch`s 0 and
3, zombies retired at epochs 2 and 5; the epoch-2 zombie is reclaimed and
the epoch-5 zombie survives. -/
theorem C1_reclaim_live_set_witness :
    (∀ z ∈ ([⟨2, some 7⟩, ⟨5, some 8⟩] : List (Zombie Nat)), z.value.isSome)
    ∧ reclaim [0, 3] ([⟨2, some 7⟩, ⟨5, some 8⟩] : List (Zombie Nat))
        = ([⟨2, some 7⟩, ⟨5, some 8⟩] : List (Zombie Nat)).filter
            (fun z => has_readers_using_epoch [0, 3] z.epoch_when_retired) :=
  ⟨by decide, (C1_reclaim_live_set Nat [0, 3] [⟨2, some 7⟩, ⟨5, some 8⟩] (by decide)).1⟩

/-! ## Theorems: write protocol (C2) -/

/-- C2.  Every write (`update`, and `write_ptr` destruction which runs
the same `exchange_and_retire`) first exchanges the new owned value into
the value cell, and only afterwards, under `zombies_mtx`, captures
`e = current_epoch.fetch_add(1)` and appends `(e, old value)` to the
zombie list: the published value is the new one, the appended pair holds
the pre-exchange value with the pre-increment epoch, the event trace has
no epoch capture before the exchange, and in every operation's trace the
epoch counter is updated only while the mutex is held. -/
theorem C2_write_protocol (V : Type) (s : ObjState V) (v : V) :
    (update s v).1.value = v
    ∧ (update s v).1.zombies = s.zombies ++ [(s.current_epoch, s.value)]
    ∧ (update s v).1.current_epoch = s.current_epoch + 1
    ∧ (update s v).2 = exchange_and_retire_trace
    ∧ write_ptr_destroy s v = update s v
    ∧ epochAfterExchange exchange_and_retire_trace false = true
    ∧ epochUpdatesUnderMutex exchange_and_retire_trace 0 = true
    ∧ epochUpdatesUnderMutex read_ptr_first_acquire_trace 0 = true
    ∧ epochUpdatesUnderMutex read_ptr_last_release_trace 0 = true
    ∧ epochUpdatesUnderMutex reclaim_trace 0 = true :=
  ⟨rfl, rfl, rfl, rfl, rfl, by decide, by decide, by decide, by decide, by decide⟩

/-! ## Theorems: nested read handles (C3) -/

/-- C3.  For a reader record satisfying the depth invariant and a nonzero
current epoch: a nested acquisition (depth already positive) reuses the
stored `min_epoch` and snapshot, only the first acquisition stores them,
a release from depth at least 2 keeps them, the release that brings the
depth back to zero clears them to `min_epoch = 0` and a null snapshot,
and both operations preserve the invariant that a record at depth 0 holds
`min_epoch = 0` and a null snapshot. -/
theorem C3_nested_read_lock (V : Type) (r : ReaderRecord V) (e : Nat) (v : V)
    (hInv : readerInv r) (he : e ≠ 0) :
    (r.num_reading ≠ 0 →
      (read_ptr_acquire e v r).min_epoch = r.min_epoch
      ∧ (read_ptr_acquire e v r).value_read = r.value_read
      ∧ (read_ptr_acquire e v r).num_reading = r.num_reading + 1)
    ∧ (r.num_reading = 0 →
      (read_ptr_acquire e v r).min_epoch = e
      ∧ (read_ptr_acquire e v r).value_read = some v)
    ∧ (2 ≤ r.num_reading →
      (read_ptr_release r).min_epoch = r.min_epoch
      ∧ (read_ptr_release r).value_read = r.value_read
      ∧ (read_ptr_release r).num_reading = r.num_reading - 1)
    ∧ (r.num_reading = 1 → read_ptr_release r = ⟨0, none, 0⟩)
    ∧ readerInv (read_ptr_acquire e v r)
    ∧ (r.num_reading ≠ 0 → readerInv (read_ptr_release r)) := by
  obtain ⟨hinv0, hinvpos⟩ := hInv
  refine ⟨?_, ?_, ?_, ?_, ?_, ?_⟩
  · intro hne
    have hme : r.min_epoch ≠ 0 := (hinvpos hne).1
    simp [read_ptr_acquire, hme]
  · intro h0
    have hme : r.min_epoch = 0 := (hinv0 h0).1
    simp [read_ptr_acquire, hme]
  · intro h2
    have hne : r.num_reading - 1 ≠ 0 := by omega
    simp [read_ptr_release, hne]
  · intro h1
    simp [read_ptr_release, h1]
  · by_cases h0 : r.num_reading = 0
    · have hme : r.min_epoch = 0 := (hinv0 h0).1
      refine ⟨fun hc => ?_, fun _ => ?_⟩
      · simp [read_ptr_acquire, hme] at hc
      · simp [read_ptr_acquire, hme, he]
    · have hme : r.min_epoch ≠ 0 := (hinvpos h0).1
      refine ⟨fun hc => ?_, fun _ => ?_⟩
      · simp [read_ptr_acquire, hme] at hc
      · simpa [read_ptr_acquire, hme] using hinvpos h0
  · intro hne
    by_cases h1 : r.num_reading = 1
    · simp [read_ptr_release, h1, readerInv]
    · have hge : r.num_reading - 1 ≠ 0 := by omega
      refine ⟨fun hc => ?_, fun _ => ?_⟩
      · simp [read_ptr_release, hge] at hc
      · simpa [read_ptr_release, hge] using hinvpos hne

/-- Witness for C3 at a concrete input: the zero-initialized record under
epoch 5 and value 42, first acquisition then release. -/
theorem C3_nested_read_lock_witness :
    readerInv (⟨0, none, 0⟩ : ReaderRecord Nat) ∧ (5 : Nat) ≠ 0
    ∧ (read_ptr_acquire 5 42 (⟨0, none, 0⟩ : ReaderRecord Nat)).min_epoch = 5
    ∧ (read_ptr_acquire 5 42 (⟨0, none, 0⟩ : ReaderRecord Nat)).value_read = some 42 :=
  ⟨⟨fun _ => ⟨rfl, rfl⟩, fun h => absurd rfl h⟩, by decide,
   (C3_nested_read_lock Nat ⟨0, none, 0⟩ 5 42
      ⟨fun _ => ⟨rfl, rfl⟩, fun h => absurd rfl h⟩ (by decide)).2.1 rfl⟩

/-! ## Theorems: hello/world scenario (C4) -/

/-- C4.  For a `reclaim_object_tl<string>` constructed with "hello": a
`read_ptr` acquired before `update("world")` still dereferences to
"hello" after the update completes, and a `read_ptr` acquired by the same
reader after the first one is dropped dereferences to "world". -/
theorem C4_read_ptr_sees_snapshot :
    read_deref (obj_update (obj_read_lock (mk_reclaim_object "hello")) "world")
      = some "hello"
    ∧ read_deref (obj_read_lock (obj_read_unlock
        (obj_update (obj_read_lock (mk_reclaim_object "hello")) "world")))
      = some "world" := by
  constructor <;> rfl

/-! ## Theorems: thread-index allocator (C5, C10) -/

/-- Helper for C5: running `get_reader` once per thread over a list of
distinct, not-yet-assigned threads, with enough free slots, assigns the
consecutive indices starting at the current counter, advances the counter
by the number of threads, leaves every other thread's cache untouched,
and caches an in-range index for each of them. -/
theorem runCalls_fresh (mx obj : Nat) (ts : List ThreadId) :
    ∀ st : ThreadRegistry, ts.Nodup → (∀ t ∈ ts, st.thread_id t = none) →
      st.thread_counter + ts.length ≤ mx →
      (runCalls mx obj st ts).1
          = (List.range' st.thread_counter ts.length).map Except.ok
      ∧ (runCalls mx obj st ts).2.thread_counter = st.thread_counter + ts.length
      ∧ (∀ t, t ∉ ts → (runCalls mx obj st ts).2.thread_id t = st.thread_id t)
      ∧ (∀ t ∈ ts, ∃ i, (runCalls mx obj st ts).2.thread_id t = some i
          ∧ st.thread_counter ≤ i ∧ i < st.thread_counter + ts.length) := by
  induction ts with
  | nil =>
    intro st _ _ _
    simp [runCalls]
  | cons t ts ih =>
    intro st hnd hnone hle
    rw [List.nodup_cons] at hnd
    obtain ⟨hnotmem, hnd'⟩ := hnd
    have hcache : st.thread_id t = none := hnone t (by simp)
    have hlen : st.thread_counter + (ts.length + 1) ≤ mx := by
      simpa using hle
    have hlt : ¬ mx ≤ st.thread_counter := by omega
    have hstep : get_reader mx st obj t
        = (.ok st.thread_counter,
           ⟨st.thread_counter + 1,
            fun t' => if t' = t then some st.thread_counter else st.thread_id t'⟩) := by
      simp [get_reader, hcache, hlt]
    set st1 : ThreadRegistry :=
      ⟨st.thread_counter + 1,
       fun t' => if t' = t then some st.thread_counter else st.thread_id t'⟩ with hst1
    have hnone1 : ∀ t' ∈ ts, st1.thread_id t' = none := by
      intro t' ht'
      have hne : t' ≠ t := fun h => hnotmem (h ▸ ht')
      simp [hst1, hne, hnone t' (by simp [ht'])]
    have hle1 : st1.thread_counter + ts.length ≤ mx := by
      simp [hst1]; omega
    obtain ⟨ih1, ih2, ih3, ih4⟩ := ih st1 hnd' hnone1 hle1
    have hrun : runCalls mx obj st (t :: ts)
        = ((Except.ok st.thread_counter) :: (runCalls mx obj st1 ts).1,
           (runCalls mx obj st1 ts).2) := by
      simp [runCalls, hstep]
    refine ⟨?_, ?_, ?_, ?_⟩
    · rw [hrun]
      simp only [List.length_cons, List.range'_succ, List.map_cons]
      rw [ih1]
    · rw [hrun]
      simp [ih2, hst1]
      omega
    · intro t' ht'
      have hne : t' ≠ t := by simp at ht'; exact ht'.1
      have hnmem : t' ∉ ts := by simp at ht'; exact ht'.2
      rw [hrun]
      simp only []
      rw [ih3 t' hnmem]
      simp [hst1, hne]
    · intro t' ht'
      rcases List.mem_cons.mp ht' with heq | hmem
      · subst heq
        refine ⟨st.thread_counter, ?_, le_refl _, by simp⟩
        rw [hrun]
        simp only []
        rw [ih3 t' hnotmem]
        simp [hst1]
      · obtain ⟨i, hi, hlo, hhi⟩ := ih4 t' hmem
        refine ⟨i, ?_, ?_, ?_⟩
        · rw [hrun]; simpa using hi
        · simp [hst1] at hlo; omega
        · simp [hst1] at hhi; simp; omega

/-- C5.  On a `reclaim_object_tl` with `max_num_threads` slots and a
fresh allocator: the `get_reader` calls of the first `max_num_threads`
distinct threads all succeed, returning the consecutive slot indices
`0 … max_num_threads - 1` of their pre-bound reader records (and a
repeated call by any of those threads returns the same cached index,
unchanged state); the first call of a further distinct thread raises the
too-many-threads error. -/
theorem C5_get_reader_limit (mx obj : Nat) (ts : List ThreadId)
    (tNew : ThreadId) (hnd : ts.Nodup) (hlen : ts.length = mx)
    (hnew : tNew ∉ ts) :
    (runCalls mx obj registry0 ts).1 = (List.range mx).map Except.ok
    ∧ (∀ t ∈ ts, ∃ i, i < mx
        ∧ (runCalls mx obj registry0 ts).2.thread_id t = some i
        ∧ get_reader mx (runCalls mx obj registry0 ts).2 obj t
            = (.ok i, (runCalls mx obj registry0 ts).2))
    ∧ (get_reader mx (runCalls mx obj registry0 ts).2 obj tNew).1
        = .error .too_many_threads := by
  have h0 : ∀ t ∈ ts, registry0.thread_id t = none := by
    intro t _; rfl
  have hle : registry0.thread_counter + ts.length ≤ mx := by
    simp [registry0, hlen]
  obtain ⟨h1, h2, h3, h4⟩ := runCalls_fresh mx obj ts registry0 hnd h0 hle
  refine ⟨?_, ?_, ?_⟩
  · rw [h1]
    simp [registry0, hlen, List.range_eq_range']
  · intro t ht
    obtain ⟨i, hi, _, hhi⟩ := h4 t ht
    refine ⟨i, ?_, hi, ?_⟩
    · simpa [registry0, hlen] using hhi
    · simp [get_reader, hi]
  · have hcache : (runCalls mx obj registry0 ts).2.thread_id tNew = none := by
      rw [h3 tNew hnew]; rfl
    have hcnt : (runCalls mx obj registry0 ts).2.thread_counter = mx := by
      rw [h2]; simp [registry0, hlen]
    simp [get_reader, hcache, hcnt]

/-- Witness for C5 at a concrete input: two slots, threads 10 and 20 get
indices 0 and 1, and thread 30 raises the too-many-threads error. -/
theorem C5_get_reader_limit_witness :
    ([10, 20] : List ThreadId).Nodup ∧ ([10, 20] : List ThreadId).length = 2
    ∧ (30 : ThreadId) ∉ ([10, 20] : List ThreadId)
    ∧ (runCalls 2 0 registry0 [10, 20]).1 = (List.range 2).map Except.ok
    ∧ (get_reader 2 (runCalls 2 0 registry0 [10, 20]).2 0 30).1
        = .error .too_many_threads :=
  ⟨by decide, by decide, by decide,
   (C5_get_reader_limit 2 0 [10, 20] 30 (by decide) (by decide) (by decide)).1,
   (C5_get_reader_limit 2 0 [10, 20] 30 (by decide) (by decide) (by decide)).2.2⟩

/-- C10.  The `static` thread counter and `thread_local` index used by
`get_reader` are function-local to the template instantiation
`reclaim_object_tl<T, max_num_threads>` and therefore shared by every
object of that instantiation: a `get_reader` call behaves identically
(same result, same allocator state, same assigned index) no matter which
object it is made on, and once `max_num_threads` distinct threads own
indices — on whichever objects — a thread without an index receives the
too-many-threads error even on a brand-new object. -/
theorem C10_allocator_shared_across_objects (mx : Nat) (st : ThreadRegistry)
    (t : ThreadId) (o1 o2 : ObjId) :
    get_reader mx st o1 t = get_reader mx st o2 t
    ∧ (mx ≤ st.thread_counter → st.thread_id t = none →
        (get_reader mx st o1 t).1 = .error .too_many_threads) := by
  constructor
  · rfl
  · intro hcnt hcache
    simp [get_reader, hcache, hcnt]

/-- Witness for C10 at a concrete input: after thread 10 obtained its
index on object 0 and thread 20 on object 1 (`max_num_threads = 2`),
thread 30's call behaves the same on objects 0 and 7 and errors on the
brand-new object 7. -/
theorem C10_allocator_shared_across_objects_witness :
    get_reader 2 stC10 0 30 = get_reader 2 stC10 7 30
    ∧ (get_reader 2 stC10 7 30).1 = .error .too_many_threads :=
  ⟨(C10_allocator_shared_across_objects 2 stC10 30 0 7).1,
   (C10_allocator_shared_across_objects 2 stC10 30 7 0).2 (by decide) (by decide)⟩

/-! ## Theorems: pure-exponential backoff (C6, C7) -/

/-- Helper: if the stage walk reports `done j`, the predicate call with
index `j` returned true. -/
theorem runStages_fst_done (t mn mx thr : Nat) (pred : Nat → Bool) :
    ∀ (l : List Nat) (i j : Nat),
      (runStages t mn mx thr pred l i).1 = .done j → pred j = true := by
  intro l
  induction l with
  | nil => intro i j h; simp [runStages] at h
  | cons n rest ih =>
    intro i j h
    simp only [runStages] at h
    split_ifs at h with h1 h2 h3 h4 h5 h6 <;>
      first
        | exact ih i j h
        | exact ih (i + 1) j h
        | (simp at h; subst h; assumption)

/-- Helper: if some stage in the list has a budget at least `min_ns` and
at least `max_ns`, the walk cannot run off the end of the list (the first
such stage enters a terminal `while (true)` loop). -/
theorem runStages_fst_not_fellOff (t mn mx thr : Nat) (pred : Nat → Bool) :
    ∀ (l : List Nat) (i : Nat), (∃ n ∈ l, mn ≤ t * n ∧ mx ≤ t * n) →
      ∀ j, (runStages t mn mx thr pred l i).1 ≠ .fellOff j := by
  intro l
  induction l with
  | nil => intro i h j; simp at h
  | cons n rest ih =>
    intro i hex j h
    obtain ⟨m, hm, hmn, hmx⟩ := hex
    have hmem := List.mem_cons.mp hm
    simp only [runStages] at h
    by_cases h1 : t * n < mn
    · rw [if_pos h1] at h
      rcases hmem with heq | hmem'
      · subst heq; exact absurd hmn (not_le.mpr h1)
      · exact ih i ⟨m, hmem', hmn, hmx⟩ j h
    · rw [if_neg h1] at h
      by_cases h3 : t * n < mx
      · by_cases h2 : thr ≤ t * n
        · rw [if_pos h2, if_pos h3] at h
          by_cases h4 : pred i = true
          · rw [if_pos h4] at h; simp at h
          · rw [if_neg h4] at h
            rcases hmem with heq | hmem'
            · subst heq; exact absurd hmx (not_le.mpr h3)
            · exact ih (i + 1) ⟨m, hmem', hmn, hmx⟩ j h
        · rw [if_neg h2, if_pos h3] at h
          by_cases h4 : pred i = true
          · rw [if_pos h4] at h; simp at h
          · rw [if_neg h4] at h
            rcases hmem with heq | hmem'
            · subst heq; exact absurd hmx (not_le.mpr h3)
            · exact ih (i + 1) ⟨m, hmem', hmn, hmx⟩ j h
      · by_cases h2 : thr ≤ t * n
        · rw [if_pos h2, if_neg h3] at h; simp at h
        · rw [if_neg h2, if_neg h3] at h; simp at h

/-- Helper: the terminal loop returns only on a predicate call that came
back true. -/
theorem runTerminal_some_pred (pred : Nat → Bool) :
    ∀ (fuel i j : Nat), runTerminal pred i fuel = some j → pred j = true := by
  intro fuel
  induction fuel with
  | zero => intro i j h; simp [runTerminal] at h
  | succ f ih =>
    intro i j h
    simp only [runTerminal] at h
    split_ifs at h with hp
    · cases h; exact hp
    · exact ih (i + 1) j h

/-- Helper: if the predicate returns true at call `i + k`, the terminal
loop exits within `k + 1` checks. -/
theorem runTerminal_finds (pred : Nat → Bool) :
    ∀ (k i : Nat), pred (i + k) = true →
      ∃ j, runTerminal pred i (k + 1) = some j := by
  intro k
  induction k with
  | zero => intro i h; exact ⟨i, by simp [runTerminal]; simpa using h⟩
  | succ k ih =>
    intro i h
    by_cases hp : pred i = true
    · exact ⟨i, by simp [runTerminal, hp]⟩
    · have hk : pred (i + 1 + k) = true := by
        have he : i + 1 + k = i + (k + 1) := by omega
        rw [he]; exact h
      obtain ⟨j, hj⟩ := ih (i + 1) hk
      exact ⟨j, by simp [runTerminal, hp]; exact hj⟩

/-- Counterexample to C6 as stated: with `PAUSE_TIME = 35` and
`min_ns = max_ns = 35·2^41`, every one of the 41 unrolled stages has
budget below `min_ns` and is compiled out, so the function returns (falls
off the end) although the always-false predicate was never called, let
alone observed true. -/
theorem C6_counterexample :
    runStages 35 (35 * 2199023255552) (35 * 2199023255552) 0 predFalse
        pause_and_check_stages 0
      = (.fellOff 0, []) := by decide

/-- C6 (amended).  Provided `min_ns` and `max_ns` are at most the budget
`PAUSE_TIME · 2^40` of the last unrolled stage, the pure-exponential wait
returns only through a predicate call that returned true: the walk cannot
fall off the end of the stage list, a `done` exit means the last
predicate call observed truth, the terminal `while (true)` loop returns
only on a true predicate call, and if the predicate is true at some call
index the terminal loop does terminate. -/
theorem C6_amended_returns_only_on_true (t mn mx thr : Nat) (pred : Nat → Bool)
    (hmn : mn ≤ t * 1099511627776) (hmx : mx ≤ t * 1099511627776) :
    (∀ j, (runStages t mn mx thr pred pause_and_check_stages 0).1 ≠ .fellOff j)
    ∧ (∀ j, (runStages t mn mx thr pred pause_and_check_stages 0).1 = .done j →
        pred j = true)
    ∧ (∀ i j fuel,
        (runStages t mn mx thr pred pause_and_check_stages 0).1 = .terminal i →
        runTerminal pred i fuel = some j → pred j = true)
    ∧ (∀ i n,
        (runStages t mn mx thr pred pause_and_check_stages 0).1 = .terminal i →
        i ≤ n → pred n = true → ∃ j, runTerminal pred i (n - i + 1) = some j) := by
  refine ⟨?_, ?_, ?_, ?_⟩
  · intro j
    exact runStages_fst_not_fellOff t mn mx thr pred pause_and_check_stages 0
      ⟨1099511627776, by decide, hmn, hmx⟩ j
  · intro j h
    exact runStages_fst_done t mn mx thr pred pause_and_check_stages 0 j h
  · intro i j fuel _ h
    exact runTerminal_some_pred pred fuel i j h
  · intro i n _ hin hp
    have hik : pred (i + (n - i)) = true := by
      have he : i + (n - i) = n := by omega
      rw [he]; exact hp
    exact runTerminal_finds pred (n - i) i hik

/-- Witness for the amended C6 at a concrete input: `PAUSE_TIME = 35`,
`min_ns = 1`, `max_ns = 10^6`, `sleep_threshold_ns = 10^5`; the walk does
not fall off the end even though the predicate is always false. -/
theorem C6_amended_returns_only_on_true_witness :
    ((1 : Nat) ≤ 35 * 1099511627776 ∧ (1000000 : Nat) ≤ 35 * 1099511627776)
    ∧ (runStages 35 1 1000000 100000 predFalse pause_and_check_stages 0).1
        ≠ .fellOff 0 :=
  ⟨⟨by decide, by decide⟩,
   (C6_amended_returns_only_on_true 35 1 1000000 100000 predFalse
      (by decide) (by decide)).1 0⟩

/-- Counterexample to C7 as stated: with `PAUSE_TIME = 35`,
`min_ns = 100` and a huge `max_ns`, the source walk makes 39 predicate
calls (stages `N = 1, 2` with budgets 35 and 70 ns are compiled out
without a check), whereas the variant that follows the spec's words —
skipped stages still check the predicate — makes 41 calls on the same
input. -/
theorem C7_counterexample :
    (runStages 35 100 (35 * 2199023255552) 0 predFalse
        pause_and_check_stages 0).1 = .fellOff 39
    ∧ (runStages_spec_skip_checks 35 100 (35 * 2199023255552) 0 predFalse
        pause_and_check_stages 0).1 = .fellOff 41 := by
  constructor <;> decide

/-- C7 (amended).  Every stage whose budget `t * n` is below `min_ns` is
skipped entirely: its guarded block is compiled out, so it performs no
predicate check and emits no delay — running the walk over skipped stages
followed by a remainder equals running it over the remainder alone, with
the same call counter and the same emitted delays. -/
theorem C7_amended_skipped_stages (t mn mx thr : Nat) (pred : Nat → Bool)
    (l1 l2 : List Nat) (i : Nat) (h : ∀ n ∈ l1, t * n < mn) :
    runStages t mn mx thr pred (l1 ++ l2) i = runStages t mn mx thr pred l2 i := by
  induction l1 with
  | nil => simp
  | cons n rest ih =>
    have hn : t * n < mn := h n (by simp)
    rw [List.cons_append]
    simp only [runStages]
    rw [if_pos hn]
    exact ih fun m hm => h m (by simp [hm])

/-- Witness for the amended C7 at a concrete input: stages `N = 1, 2`
(budgets 35 and 70 ns) are below `min_ns = 140` and contribute neither a
check nor a delay. -/
theorem C7_amended_skipped_stages_witness :
    (∀ n ∈ ([1, 2] : List Nat), 35 * n < 140)
    ∧ runStages 35 140 4900 0 predFalse ([1, 2] ++ [4]) 0
        = runStages 35 140 4900 0 predFalse [4] 0 :=
  ⟨by decide,
   C7_amended_skipped_stages 35 140 4900 0 predFalse [1, 2] [4] 0 (by decide)⟩

/-! ## Theorems: counter-variant condition variable (C8) -/

/-- Helper: a run of a successful step followed by more steps. -/
theorem cvRun_cons_some {s s' : CVSys} {a : CVAction}
    (h : cvStep s a = some s') (l : List CVAction) :
    cvRun s (a :: l) = cvRun s' l := by
  simp [cvRun, h]

/-- Helper: running a concatenation of action lists is running them in
sequence. -/
theorem cvRun_append (l1 l2 : List CVAction) :
    ∀ s : CVSys, cvRun s (l1 ++ l2) = (cvRun s l1).bind fun s' => cvRun s' l2 := by
  induction l1 with
  | nil => intro s; simp [cvRun]
  | cons a t ih =>
    intro s
    simp only [List.cons_append, cvRun]
    cases h : cvStep s a with
    | none => simp
    | some s' => simpa using ih s'

/-- Helper: `m` notifies increment the counter by `m` and touch no
waiter. -/
theorem cvRun_notifies (m : Nat) :
    ∀ (c : Int) (ph : List WaiterPhase),
      cvRun ⟨c, ph⟩ (List.replicate m .notify) = some ⟨c + m, ph⟩ := by
  induction m with
  | zero => intro c ph; simp [cvRun]
  | succ m ih =>
    intro c ph
    simp only [List.replicate_succ, cvRun, cvStep]
    rw [ih (c + 1) ph]
    congr 2
    push_cast
    ring

/-- Helper: the phase of the waiter just past a prefix. -/
theorem getPhase_append (p : List WaiterPhase) (x : WaiterPhase)
    (tl : List WaiterPhase) : getPhase (p ++ x :: tl) p.length = some x := by
  induction p with
  | nil => rfl
  | cons q t ih => simpa [getPhase] using ih

/-- Helper: setting the phase of the waiter just past a prefix. -/
theorem setPhase_append (p : List WaiterPhase) (x y : WaiterPhase)
    (tl : List WaiterPhase) : setPhase (p ++ x :: tl) p.length y = p ++ y :: tl := by
  induction p with
  | nil => rfl
  | cons q t ih => simp [setPhase, ih]

/-- Helper: with the counter holding `k`, the `k` sequential waits of the
waiters following prefix `p` all complete, leaving the counter at 0. -/
theorem cvRun_goWaits (k : Nat) :
    ∀ (p rest : List WaiterPhase),
      cvRun ⟨(k : Int), p ++ (List.replicate k .waiting ++ rest)⟩ (goWaits p.length k)
        = some ⟨0, p ++ (List.replicate k .finished ++ rest)⟩ := by
  induction k with
  | zero => intro p rest; simp [goWaits, cvRun]
  | succ k ih =>
    intro p rest
    rw [show List.replicate (k + 1) WaiterPhase.waiting ++ rest
          = WaiterPhase.waiting :: (List.replicate k WaiterPhase.waiting ++ rest) by
        simp [List.replicate_succ]]
    rw [show goWaits p.length (k + 1)
          = CVAction.observe p.length :: CVAction.decrement p.length
              :: goWaits (p.length + 1) k from rfl]
    have h1 : cvStep ⟨((k + 1 : Nat) : Int),
        p ++ WaiterPhase.waiting :: (List.replicate k WaiterPhase.waiting ++ rest)⟩
        (CVAction.observe p.length)
        = some ⟨((k + 1 : Nat) : Int),
            p ++ WaiterPhase.observed :: (List.replicate k WaiterPhase.waiting ++ rest)⟩ := by
      have hpos : (0 : Int) < ((k + 1 : Nat) : Int) := by exact_mod_cast Nat.succ_pos k
      simp only [cvStep, getPhase_append, setPhase_append]
      simp [hpos]
    have h2 : cvStep ⟨((k + 1 : Nat) : Int),
        p ++ WaiterPhase.observed :: (List.replicate k WaiterPhase.waiting ++ rest)⟩
        (CVAction.decrement p.length)
        = some ⟨((k + 1 : Nat) : Int) - 1,
            p ++ WaiterPhase.finished :: (List.replicate k WaiterPhase.waiting ++ rest)⟩ := by
      simp only [cvStep, getPhase_append, setPhase_append]
      simp
    rw [cvRun_cons_some h1, cvRun_cons_some h2]
    rw [show ((k + 1 : Nat) : Int) - 1 = (k : Int) by push_cast; ring]
    rw [show p ++ WaiterPhase.finished :: (List.replicate k WaiterPhase.waiting ++ rest)
          = (p ++ [WaiterPhase.finished]) ++ (List.replicate k WaiterPhase.waiting ++ rest) by
        simp]
    rw [show p.length + 1 = (p ++ [WaiterPhase.finished]).length by simp]
    rw [ih (p ++ [WaiterPhase.finished]) rest]
    simp [List.replicate_succ]

/-- Counterexample to C8 as stated: one notify followed by two
interleaved waits — both waiters observe the same positive counter before
either decrements, both waits complete, and the counter ends at `-1`.  A
single notify is consumed by two waits and the counter becomes
negative. -/
theorem C8_counterexample :
    cvRun ⟨0, [.waiting, .waiting]⟩
        [.notify, .observe 0, .observe 1, .decrement 0, .decrement 1]
      = some ⟨-1, [.finished, .finished]⟩ := by decide

/-- C8 (amended).  In the step relation of the counter-variant condition
variable: `notify` increments the counter by one; a wait's observation
step is enabled only on a positive counter and does not modify it; its
decrement step is a separate atomic operation that unconditionally
subtracts one (so with interleaved waiters one notify can be consumed by
several waits and the counter can go negative, as the counterexample
shows); and sequentially, after `k` notifies with no intervening waits,
exactly `k` subsequent waits complete without further notify — the
`(k+1)`-th waiter's observation is not enabled. -/
theorem C8_amended_counter_semaphore (k : Nat) :
    (∀ s : CVSys, cvStep s .notify = some ⟨s.counter + 1, s.phase⟩)
    ∧ (∀ (s s' : CVSys) (w : Nat), cvStep s (.observe w) = some s' →
        0 < s.counter ∧ s'.counter = s.counter
          ∧ getPhase s.phase w = some .waiting)
    ∧ (∀ (s s' : CVSys) (w : Nat), cvStep s (.decrement w) = some s' →
        s'.counter = s.counter - 1 ∧ getPhase s.phase w = some .observed)
    ∧ cvRun ⟨0, List.replicate (k + 1) .waiting⟩ (seqTrace k)
        = some ⟨0, List.replicate k .finished ++ [.waiting]⟩
    ∧ cvStep ⟨0, List.replicate k .finished ++ [.waiting]⟩ (.observe k) = none := by
  refine ⟨fun s => rfl, ?_, ?_, ?_, ?_⟩
  · intro s s' w h
    simp only [cvStep] at h
    split_ifs at h with hg hc
    · cases h
      exact ⟨hc, rfl, hg⟩
  · intro s s' w h
    simp only [cvStep] at h
    split_ifs at h with hg
    · cases h
      exact ⟨rfl, hg⟩
  · rw [seqTrace, cvRun_append]
    rw [cvRun_notifies k 0 (List.replicate (k + 1) .waiting)]
    simp only [Option.some_bind]
    rw [show (0 : Int) + (k : Int) = (k : Int) by ring]
    rw [List.replicate_succ']
    have hg := cvRun_goWaits k [] [.waiting]
    simpa using hg
  · have hgp : getPhase (List.replicate k WaiterPhase.finished ++ [.waiting]) k
        = some .waiting := by
      have := getPhase_append (List.replicate k WaiterPhase.finished) .waiting []
      simpa using this
    simp [cvStep, hgp]

/-- Witness for the amended C8 at a concrete input: two notifies, then
two sequential waits complete and leave the counter at 0 with the third
waiter still waiting. -/
theorem C8_amended_counter_semaphore_witness :
    cvRun ⟨0, List.replicate 3 .waiting⟩ (seqTrace 2)
      = some ⟨0, List.replicate 2 .finished ++ [.waiting]⟩ :=
  (C8_amended_counter_semaphore 2).2.2.2.1

/-! ## Theorems: timed wait (C9) -/

/-- C9.  A terminating `wait_until` run returns `false` iff its last
predicate call saw the deadline reached before the signal was observed:
on a `true` return the terminating call saw the clock before the deadline
and a positive counter and exactly one `fetch_sub(1)` was performed; on a
`false` return the counter was not decremented; every earlier call saw
neither the deadline nor a positive counter; and `wait_for` delegates to
`wait_until` with deadline `now + timeout`. -/
theorem C9_wait_until_deadline (now : Nat → Nat) (deadline : Nat)
    (cnt : Nat → Int) (n0 fuel : Nat) (r : WUResult)
    (h : wait_until_run now deadline cnt n0 fuel = some r) :
    (r.returned = false ↔ deadline ≤ now r.call_idx)
    ∧ (r.returned = true →
        now r.call_idx < deadline ∧ 0 < cnt r.call_idx ∧ r.sub_count = 1)
    ∧ (r.returned = false → r.sub_count = 0)
    ∧ n0 ≤ r.call_idx
    ∧ (∀ m, n0 ≤ m → m < r.call_idx → now m < deadline ∧ cnt m ≤ 0)
    ∧ (∀ d, wait_for_run now d cnt n0 fuel
        = wait_until_run now (now n0 + d) cnt n0 fuel) := by
  induction fuel generalizing n0 with
  | zero => simp [wait_until_run] at h
  | succ f ih =>
    simp only [wait_until_run] at h
    split_ifs at h with h1 h2
    · obtain rfl : (⟨false, n0, 0⟩ : WUResult) = r := Option.some.inj h
      refine ⟨by simpa using h1, by simp, fun _ => rfl, le_refl _, ?_, fun d => rfl⟩
      intro m hm1 hm2
      have hm2' : m < n0 := hm2
      omega
    · obtain rfl : (⟨true, n0, 1⟩ : WUResult) = r := Option.some.inj h
      refine ⟨by simp [h1], fun _ => ⟨show now n0 < deadline by omega, h2, rfl⟩,
        by simp, le_refl _, ?_, fun d => rfl⟩
      intro m hm1 hm2
      have hm2' : m < n0 := hm2
      omega
    · obtain ⟨c1, c2, c3, c4, c5, _⟩ := ih (n0 + 1) h
      refine ⟨c1, c2, c3, by omega, ?_, fun d => rfl⟩
      intro m hm1 hm2
      by_cases hm0 : m = n0
      · subst hm0
        exact ⟨by omega, by omega⟩
      · exact c5 m (by omega) hm2

/-- Witness for C9 at a concrete input: a clock advancing one per call, a
never-signalled counter and deadline 5 — the wait times out at call 5,
returns `false` and performs no decrement. -/
theorem C9_wait_until_deadline_witness :
    wait_until_run nowLinear 5 cntZero 0 10 = some ⟨false, 5, 0⟩
    ∧ ((false = false) ↔ (5 : Nat) ≤ nowLinear 5) :=
  ⟨by decide,
   (C9_wait_until_deadline nowLinear 5 cntZero 0 10 ⟨false, 5, 0⟩ (by decide)).1⟩

end Crill
